import Mathlib

/-!
# DiscreteSpace (turboWAVE): grid geometry, strides, checkpoint record

Shallow embedding of `core/source/base/DiscreteSpace.cpp`.

* `tw::Int` and `tw::Float` are typedefs declared in a header outside DiscreteSpace.cpp,
  so the record type `DiscreteSpace F I` is parametric in them.
* `Resize` is embedded at `I = ℤ` (signed overflow is undefined behaviour in C++, so only
  overflow-free executions have a meaning to embed) and for an arbitrary type `F` of
  `tw::Float` values with an arbitrary arithmetic `FloatArith F`: each `+`, `*`, `/` and
  each conversion of an integer in the source is one operation of that arithmetic, with
  whatever rounding it has. Two arithmetics are given: the exact one of ℚ, and the IEEE 754
  binary formats with rounding to nearest, ties to even.
* A C++ member function mutating `*this` becomes a function from the old state to the new
  state. Members that a constructor leaves untouched hold indeterminate values; they are
  the fields of an arbitrary state passed in.
-/

namespace tw

/-- The struct `DiscreteSpace`, with the data members that DiscreteSpace.cpp reads and writes.
Arrays `tw::Int x[4]` are functions on `Fin 4` (slot 0 is the element axis, slots 1..3 the
spatial axes); a `tw::vec3` is a function on `Fin 3`. -/
structure DiscreteSpace (F I : Type) where
  dt : F
  dth : F
  dti : F
  corner : Fin 3 → F
  size : Fin 3 → F
  globalCorner : Fin 3 → F
  globalSize : Fin 3 → F
  spacing : Fin 3 → F
  freq : Fin 3 → F
  num : Fin 4 → I
  dim : Fin 4 → I
  lfg : Fin 4 → I
  ufg : Fin 4 → I
  lng : Fin 4 → I
  ung : Fin 4 → I
  ignorable : Fin 4 → I
  encodingStride : Fin 4 → I
  decodingStride : Fin 4 → I
  layers : Fin 4 → I

/-- The geometry state over a type `F` of `tw::Float` values, with unbounded integers. -/
abbrev Space (F : Type) := DiscreteSpace F ℤ

/-- The arithmetic of `tw::Float` that `Resize` uses: conversion of a `tw::Int`, sum,
product and quotient. Nothing is assumed about the operations; each operator of the
source is one of them, applied on its own (the product and the sum of line 83 are not
fused). -/
structure FloatArith (F : Type) where
  ofInt : ℤ → F
  add : F → F → F
  mul : F → F → F
  div : F → F → F

/-- Exact rational arithmetic: no operation rounds. It is the idealisation that the words
"in exact rational arithmetic" refer to, not the arithmetic of the compiled program; the
quotient by zero, which ℚ does not have, is 0 by the convention of the library. -/
def exactArith : FloatArith ℚ :=
  { ofInt := fun n => (n : ℚ), add := fun x y => x + y, mul := fun x y => x * y
    div := fun x y => x / y }

/-- Assignment `a[i] = v` to one slot of a C array. -/
def setAt {n : Nat} {α : Type} (a : Fin n → α) (i : Fin n) (v : α) : Fin n → α :=
  fun j => if j = i then v else a j

/-- The index `i-1` into a `tw::vec3` used by the loops `for (i=1;i<=3;i++)`. -/
def vecIndex (i : Fin 4) : Fin 3 := ⟨i.val - 1, by omega⟩

/-- The values `1,2,3` taken by the loop variable of `for (tw::Int i=1;i<=3;i++)`. -/
def axes : List (Fin 4) := [1, 2, 3]

/-- Default constructor `DiscreteSpace::DiscreteSpace()`: clears `ignorable[1..3]` and
leaves every other member as it was (indeterminate). -/
def DiscreteSpace.ctor {F : Type} (mem : Space F) : Space F :=
  let ignorable := setAt mem.ignorable 1 0
  let ignorable := setAt ignorable 2 0
  let ignorable := setAt ignorable 3 0
  { mem with ignorable := ignorable }

/-- Body of the first loop of `Resize` (lines 42-61): bounds, layers and `num` of axis `i`. -/
def Resize.boundsStep {F : Type} (dim : Fin 4 → ℤ) (ghostCellLayers : ℤ) (s : Space F)
    (i : Fin 4) : Space F :=
  let s1 : Space F :=
    if dim i = 1 then
      { s with
        layers := setAt s.layers i 0
        lfg := setAt s.lfg i 1
        ufg := setAt s.ufg i 1
        lng := setAt s.lng i 1
        ung := setAt s.ung i 1 }
    else
      let layers := setAt s.layers i ghostCellLayers
      { s with
        layers := layers
        lfg := setAt s.lfg i (1 - layers i)
        ufg := setAt s.ufg i (dim i + layers i)
        lng := setAt s.lng i 0
        ung := setAt s.ung i (dim i + 1) }
  { s1 with num := setAt s1.num i (s1.ufg i - s1.lfg i + 1) }

/-- Body of the second loop of `Resize` (lines 67-74): an axis with one cell gets a zero
encoding stride and its `ignorable` flag raised. There is no `else` branch. -/
def Resize.ignorableStep {F : Type} (dim : Fin 4 → ℤ) (s : Space F) (i : Fin 4) : Space F :=
  if dim i = 1 then
    { s with
      encodingStride := setAt s.encodingStride i 0
      ignorable := setAt s.ignorable i 1 }
  else s

/-- Body of the third loop of `Resize` (lines 78-84): spacing, frequency, local size and
local corner of axis `i`, each computed by the operations of the arithmetic `fa` in the
order of the source. The integers `gdim[i]`, `1`, `dim[i]` and `dom[i]` are converted to
`tw::Float` before they are used. The `dim` of this loop is the parameter, which shadows
the member. -/
def Resize.metricStep {F : Type} (fa : FloatArith F) (dim gdim dom : Fin 4 → ℤ)
    (gcorner : Fin 3 → F) (s : Space F) (i : Fin 4) : Space F :=
  let spacing := setAt s.spacing (vecIndex i)
    (fa.div (s.globalSize (vecIndex i)) (fa.ofInt (gdim i)))
  let freq := setAt s.freq (vecIndex i) (fa.div (fa.ofInt 1) (spacing (vecIndex i)))
  let size := setAt s.size (vecIndex i) (fa.mul (fa.ofInt (dim i)) (spacing (vecIndex i)))
  let corner := setAt s.corner (vecIndex i)
    (fa.add (gcorner (vecIndex i)) (fa.mul (fa.ofInt (dom i)) (size (vecIndex i))))
  { s with spacing := spacing, freq := freq, size := size, corner := corner }

/-- The member function
`DiscreteSpace::Resize(dim,gdim,dom,gcorner,gsize,ghostCellLayers)` (lines 29-85),
statement by statement. The body has no `throw`, no `return` and no call that can fail. -/
def Resize {F : Type} (fa : FloatArith F) (s : Space F) (dim gdim dom : Fin 4 → ℤ)
    (gcorner gsize : Fin 3 → F) (ghostCellLayers : ℤ) : Space F :=
  -- init unused elements
  let s : Space F := { s with num := setAt s.num 0 0 }
  let s : Space F := { s with dim := setAt s.dim 0 (s.num 0) }
  let s : Space F := { s with ignorable := setAt s.ignorable 0 0 }
  let s : Space F := { s with ung := setAt s.ung 0 0 }
  let s : Space F := { s with lng := setAt s.lng 0 (s.ung 0) }
  let s : Space F := { s with ufg := setAt s.ufg 0 (s.lng 0) }
  let s : Space F := { s with lfg := setAt s.lfg 0 (s.ufg 0) }
  let s : Space F := { s with encodingStride := setAt s.encodingStride 0 0 }
  let s : Space F := { s with decodingStride := setAt s.decodingStride 0 (s.encodingStride 0) }
  let s : Space F := { s with layers := setAt s.layers 0 ghostCellLayers }
  let s : Space F := { s with dim := setAt s.dim 1 (dim 1) }
  let s : Space F := { s with dim := setAt s.dim 2 (dim 2) }
  let s : Space F := { s with dim := setAt s.dim 3 (dim 3) }
  let s : Space F := axes.foldl (Resize.boundsStep dim ghostCellLayers) s
  let s : Space F := { s with encodingStride := setAt s.encodingStride 1 (s.num 2 * s.num 3) }
  let s : Space F := { s with decodingStride := setAt s.decodingStride 1 (s.encodingStride 1) }
  let s : Space F := { s with encodingStride := setAt s.encodingStride 2 (s.num 3) }
  let s : Space F := { s with decodingStride := setAt s.decodingStride 2 (s.encodingStride 2) }
  let s : Space F := { s with encodingStride := setAt s.encodingStride 3 1 }
  let s : Space F := { s with decodingStride := setAt s.decodingStride 3 (s.encodingStride 3) }
  let s : Space F := axes.foldl (Resize.ignorableStep dim) s
  let s : Space F := { s with globalCorner := gcorner }
  let s : Space F := { s with globalSize := gsize }
  axes.foldl (Resize.metricStep fa dim gdim dom gcorner) s

/-- The constructor
`DiscreteSpace::DiscreteSpace(xDim,yDim,zDim,corner,size,ghostCellLayers)` (lines 10-16):
local and global cell counts coincide and the domain index is zero. It initialises no member
before calling `Resize`. -/
def DiscreteSpace.ctor6 {F : Type} (fa : FloatArith F) (mem : Space F) (xDim yDim zDim : ℤ)
    (corner size : Fin 3 → F) (ghostCellLayers : ℤ) : Space F :=
  let ldim : Fin 4 → ℤ := ![0, xDim, yDim, zDim]
  let gdim : Fin 4 → ℤ := ![0, xDim, yDim, zDim]
  let dom : Fin 4 → ℤ := ![0, 0, 0, 0]
  Resize fa mem ldim gdim dom corner size ghostCellLayers

/-- An arbitrary memory content used to exercise the definitions. -/
def zeroSpace : Space ℚ :=
  { dt := 0, dth := 0, dti := 0
    corner := fun _ => 0, size := fun _ => 0, globalCorner := fun _ => 0
    globalSize := fun _ => 0, spacing := fun _ => 0, freq := fun _ => 0
    num := fun _ => 0, dim := fun _ => 0, lfg := fun _ => 0, ufg := fun _ => 0
    lng := fun _ => 0, ung := fun _ => 0, ignorable := fun _ => 0
    encodingStride := fun _ => 0, decodingStride := fun _ => 0, layers := fun _ => 0 }

/-- The error kinds a geometry operation could report to its caller. -/
inductive GeometryError where
  | InvalidGeometry
  deriving DecidableEq, Repr

/-- What a caller of `Resize` observes. `Resize` is declared `void`, its body (lines 29-85)
contains no `throw`, no early `return`, no assertion and no test of its arguments, so every
call completes normally with the state computed above. -/
def Resize.outcome {F : Type} (fa : FloatArith F) (s : Space F) (dim gdim dom : Fin 4 → ℤ)
    (gcorner gsize : Fin 3 → F) (ghostCellLayers : ℤ) : Except GeometryError (Space F) :=
  Except.ok (Resize fa s dim gdim dom gcorner gsize ghostCellLayers)

/-- States reachable from a default-constructed object by calls of `Resize` whose
arguments have at least one cell per axis and a non-negative ghost depth. -/
inductive Reachable {F : Type} (fa : FloatArith F) : Space F → Prop where
  | ctor (mem : Space F) : Reachable fa (DiscreteSpace.ctor mem)
  | resize (s : Space F) (dim gdim dom : Fin 4 → ℤ) (gcorner gsize : Fin 3 → F) (L : ℤ)
      (hs : Reachable fa s) (hdim : ∀ i : Fin 4, i ≠ 0 → 1 ≤ dim i) (hL : 0 ≤ L) :
      Reachable fa (Resize fa s dim gdim dom gcorner gsize L)

/-! ### Index encoding -/

/-- Modelled from the spec: the cell encoder of DiscreteSpace lives in the class
declaration, outside DiscreteSpace.cpp. The linear offset of the logical cell
`(i,j,k)` is the sum of the offsets from the lower full-ghost bound times the encoding
strides. -/
def EncodeCell {F : Type} (s : Space F) (i j k : ℤ) : ℤ :=
  (i - s.lfg 1) * s.encodingStride 1 + (j - s.lfg 2) * s.encodingStride 2
    + (k - s.lfg 3) * s.encodingStride 3

/-- Modelled from the spec: the cell decoder of DiscreteSpace lives in the class
declaration, outside DiscreteSpace.cpp. Quotient and remainder are those of C
(truncated). -/
def DecodeCell {F : Type} (s : Space F) (cell : ℤ) : ℤ × ℤ × ℤ :=
  (s.lfg 1 + Int.tdiv cell (s.decodingStride 1),
   s.lfg 2 + Int.tdiv (Int.tmod cell (s.decodingStride 1)) (s.decodingStride 2),
   s.lfg 3 + Int.tdiv (Int.tmod cell (s.decodingStride 2)) (s.decodingStride 3))

/-- The stored box of logical cell indices, `lfg[k] <= i_k <= ufg[k]` on the three axes. -/
def storedBox {F : Type} (s : Space F) : Set (ℤ × ℤ × ℤ) :=
  { p | (s.lfg 1 ≤ p.1 ∧ p.1 ≤ s.ufg 1) ∧ (s.lfg 2 ≤ p.2.1 ∧ p.2.1 ≤ s.ufg 2)
      ∧ (s.lfg 3 ≤ p.2.2 ∧ p.2.2 ≤ s.ufg 3) }

/-! ### Dispatch to the OpenCL backend -/

/-- Width in bits of `size_t` on the 64-bit hosts the OpenCL build targets. -/
def sizeBits : Nat := 64

/-- Conversion of a `tw::Int` value to `size_t`: reduction modulo `2^sizeBits`. -/
def toSizeT (x : ℤ) : Nat := (x % 2 ^ sizeBits).toNat

/-- The arguments of `clEnqueueNDRangeKernel` that describe the iteration domain. -/
structure NDRange where
  work_dim : Nat
  global_work_offset : Option (List Nat)
  global_work_size : List Nat
  deriving DecidableEq, Repr

/-- The member function `DiscreteSpace::CellUpdateProtocol` (lines 135-140): the range it
enqueues is one-dimensional, has no offset, and its size is `num[1]*num[2]*num[3]`. -/
def CellUpdateProtocol {F : Type} (s : Space F) : NDRange :=
  let cells : Nat := toSizeT (s.num 1 * s.num 2 * s.num 3)
  { work_dim := 1, global_work_offset := none, global_work_size := [cells] }

/-! ### Checkpoint record -/

/-- One `char` of a binary stream. -/
abbrev Byte := Fin 256

/-- Object representation of the values of a type: `sizeof` bytes per value, and copying
the bytes of a value back into an object of the type gives that value again. -/
structure RawRep (α : Type) where
  sizeof : Nat
  toBytes : α → List Byte
  ofBytes : List Byte → α
  length_toBytes : ∀ x, (toBytes x).length = sizeof
  ofBytes_toBytes : ∀ x, ofBytes (toBytes x) = x

/-- The bytes of the `i`-th element inside the bytes of an array. -/
def elemBytes {α : Type} (r : RawRep α) (bs : List Byte) (i : Nat) : List Byte :=
  (bs.drop (i * r.sizeof)).take r.sizeof

/-- Bytes of a C array `T a[n]`: the elements one after the other, without padding. -/
def arrayBytes {α : Type} (r : RawRep α) {n : Nat} (a : Fin n → α) : List Byte :=
  ((List.finRange n).map fun i => r.toBytes (a i)).flatten

/-- An input stream: the bytes not yet extracted, and the fail bit. -/
structure ifstream where
  data : List Byte
  failbit : Bool
  deriving DecidableEq, Repr

/-- An output stream: the bytes written so far. Write errors of the device are not
modelled. -/
structure ofstream where
  data : List Byte
  deriving DecidableEq, Repr

/-- The call `outFile.write((char*)&x,sizeof(x))`. -/
def ofstream.write {α : Type} (outFile : ofstream) (r : RawRep α) (x : α) : ofstream :=
  { data := outFile.data ++ r.toBytes x }

/-- The call `inFile.read((char*)&x,sizeof(x))` on an object holding `old`: a failed stream
extracts nothing; otherwise the available bytes, at most `sizeof(x)`, overwrite the leading
bytes of the object, and the fail bit is raised when fewer than `sizeof(x)` were there. -/
def ifstream.read {α : Type} (inFile : ifstream) (r : RawRep α) (old : α) : α × ifstream :=
  if inFile.failbit then (old, inFile)
  else
    let got := inFile.data.take r.sizeof
    if got.length = r.sizeof then
      (r.ofBytes got, { data := inFile.data.drop r.sizeof, failbit := false })
    else
      (r.ofBytes (got ++ (r.toBytes old).drop got.length), { data := [], failbit := true })

/-- The call `outFile.write((char*)a,sizeof(a))` for an array `a` of `n` elements. -/
def ofstream.writeArray {α : Type} {n : Nat} (outFile : ofstream) (r : RawRep α)
    (a : Fin n → α) : ofstream :=
  { data := outFile.data ++ arrayBytes r a }

/-- The call `inFile.read((char*)a,sizeof(a))` for an array `a` of `n` elements, with the
same treatment of a failed or short stream as `ifstream.read`. -/
def ifstream.readArray {α : Type} {n : Nat} (inFile : ifstream) (r : RawRep α)
    (old : Fin n → α) : (Fin n → α) × ifstream :=
  if inFile.failbit then (old, inFile)
  else
    let got := inFile.data.take (n * r.sizeof)
    if got.length = n * r.sizeof then
      (fun i => r.ofBytes (elemBytes r got i.val),
        { data := inFile.data.drop (n * r.sizeof), failbit := false })
    else
      (fun i => r.ofBytes (elemBytes r (got ++ (arrayBytes r old).drop got.length) i.val),
        { data := [], failbit := true })

/-- The member function `DiscreteSpace::WriteCheckpoint` (lines 110-131). The object
representations of `tw::Float`, `tw::vec3` and `tw::Int`, which are declared outside
DiscreteSpace.cpp, are the parameters `fr`, `vr` and `ir`. -/
def WriteCheckpoint {F I : Type} (fr : RawRep F) (vr : RawRep (Fin 3 → F)) (ir : RawRep I)
    (s : DiscreteSpace F I) (outFile : ofstream) : ofstream :=
  let outFile := outFile.write fr s.dt
  let outFile := outFile.write fr s.dth
  let outFile := outFile.write fr s.dti
  let outFile := outFile.write vr s.corner
  let outFile := outFile.write vr s.size
  let outFile := outFile.write vr s.globalCorner
  let outFile := outFile.write vr s.globalSize
  let outFile := outFile.write vr s.spacing
  let outFile := outFile.write vr s.freq
  let outFile := outFile.writeArray ir s.num
  let outFile := outFile.writeArray ir s.dim
  let outFile := outFile.writeArray ir s.lfg
  let outFile := outFile.writeArray ir s.ufg
  let outFile := outFile.writeArray ir s.lng
  let outFile := outFile.writeArray ir s.ung
  let outFile := outFile.writeArray ir s.ignorable
  let outFile := outFile.writeArray ir s.encodingStride
  let outFile := outFile.writeArray ir s.decodingStride
  let outFile := outFile.writeArray ir s.layers
  outFile

/-- The member function `DiscreteSpace::ReadCheckpoint` (lines 87-108), returning the
object after the reads and the stream after them. -/
def ReadCheckpoint {F I : Type} (fr : RawRep F) (vr : RawRep (Fin 3 → F)) (ir : RawRep I)
    (s : DiscreteSpace F I) (inFile : ifstream) : DiscreteSpace F I × ifstream :=
  let got := inFile.read fr s.dt
  let s : DiscreteSpace F I := { s with dt := got.1 }
  let inFile := got.2
  let got := inFile.read fr s.dth
  let s : DiscreteSpace F I := { s with dth := got.1 }
  let inFile := got.2
  let got := inFile.read fr s.dti
  let s : DiscreteSpace F I := { s with dti := got.1 }
  let inFile := got.2
  let got := inFile.read vr s.corner
  let s : DiscreteSpace F I := { s with corner := got.1 }
  let inFile := got.2
  let got := inFile.read vr s.size
  let s : DiscreteSpace F I := { s with size := got.1 }
  let inFile := got.2
  let got := inFile.read vr s.globalCorner
  let s : DiscreteSpace F I := { s with globalCorner := got.1 }
  let inFile := got.2
  let got := inFile.read vr s.globalSize
  let s : DiscreteSpace F I := { s with globalSize := got.1 }
  let inFile := got.2
  let got := inFile.read vr s.spacing
  let s : DiscreteSpace F I := { s with spacing := got.1 }
  let inFile := got.2
  let got := inFile.read vr s.freq
  let s : DiscreteSpace F I := { s with freq := got.1 }
  let inFile := got.2
  let got := inFile.readArray ir s.num
  let s : DiscreteSpace F I := { s with num := got.1 }
  let inFile := got.2
  let got := inFile.readArray ir s.dim
  let s : DiscreteSpace F I := { s with dim := got.1 }
  let inFile := got.2
  let got := inFile.readArray ir s.lfg
  let s : DiscreteSpace F I := { s with lfg := got.1 }
  let inFile := got.2
  let got := inFile.readArray ir s.ufg
  let s : DiscreteSpace F I := { s with ufg := got.1 }
  let inFile := got.2
  let got := inFile.readArray ir s.lng
  let s : DiscreteSpace F I := { s with lng := got.1 }
  let inFile := got.2
  let got := inFile.readArray ir s.ung
  let s : DiscreteSpace F I := { s with ung := got.1 }
  let inFile := got.2
  let got := inFile.readArray ir s.ignorable
  let s : DiscreteSpace F I := { s with ignorable := got.1 }
  let inFile := got.2
  let got := inFile.readArray ir s.encodingStride
  let s : DiscreteSpace F I := { s with encodingStride := got.1 }
  let inFile := got.2
  let got := inFile.readArray ir s.decodingStride
  let s : DiscreteSpace F I := { s with decodingStride := got.1 }
  let inFile := got.2
  let got := inFile.readArray ir s.layers
  let s : DiscreteSpace F I := { s with layers := got.1 }
  let inFile := got.2
  (s, inFile)

/-- The checkpoint record as the interface section of the spec lays it out: `dt, dth,
dti, corner, size, globalCorner, globalSize, spacing, freq, num, dim, lfg, ufg, lng, ung,
ignorable, encodingStride, decodingStride, layers`, each as its raw bytes, nothing in
between. -/
def recordLayout {F I : Type} (fr : RawRep F) (vr : RawRep (Fin 3 → F)) (ir : RawRep I)
    (s : DiscreteSpace F I) : List Byte :=
  fr.toBytes s.dt
    ++ fr.toBytes s.dth
    ++ fr.toBytes s.dti
    ++ vr.toBytes s.corner
    ++ vr.toBytes s.size
    ++ vr.toBytes s.globalCorner
    ++ vr.toBytes s.globalSize
    ++ vr.toBytes s.spacing
    ++ vr.toBytes s.freq
    ++ arrayBytes ir s.num
    ++ arrayBytes ir s.dim
    ++ arrayBytes ir s.lfg
    ++ arrayBytes ir s.ufg
    ++ arrayBytes ir s.lng
    ++ arrayBytes ir s.ung
    ++ arrayBytes ir s.ignorable
    ++ arrayBytes ir s.encodingStride
    ++ arrayBytes ir s.decodingStride
    ++ arrayBytes ir s.layers

/-- The bytes of the first `n` little-endian digits of `x` in base 256. -/
def leBytes : Nat → Nat → List Byte
  | 0, _ => []
  | n + 1, x => ⟨x % 256, Nat.mod_lt x (by decide)⟩ :: leBytes n (x / 256)

/-- The number whose little-endian digits in base 256 are the given bytes. -/
def ofLeBytes : List Byte → Nat
  | [] => 0
  | b :: bs => b.val + 256 * ofLeBytes bs

/-- A 64-bit machine word (the bit pattern of an `int64_t` or of a `double`). -/
abbrev Word64 := Fin (2 ^ 64)

/-- The little-endian object representation of a 64-bit word. -/
def word64Rep : RawRep Word64 where
  sizeof := 8
  toBytes x := leBytes 8 x.val
  ofBytes bs := Fin.ofNat (ofLeBytes bs)
  length_toBytes x := by simp [leBytes]
  ofBytes_toBytes x := by
    have key : ∀ (n x : Nat), ofLeBytes (leBytes n x) = x % 256 ^ n := by
      intro n
      induction n with
      | zero => intro x; simp [leBytes, ofLeBytes, Nat.mod_one]
      | succ n ih =>
        intro x
        simp only [leBytes, ofLeBytes, ih]
        rw [pow_succ, Nat.mul_comm (256 ^ n) 256, Nat.mod_mul]
    apply Fin.ext
    have hx := x.isLt
    simp only [key, Fin.ofNat]
    norm_num
    omega

/-- The object representation of a struct of three members of one type laid out one after
the other. -/
def vec3Rep {α : Type} (r : RawRep α) : RawRep (Fin 3 → α) where
  sizeof := r.sizeof + (r.sizeof + r.sizeof)
  toBytes v := r.toBytes (v 0) ++ (r.toBytes (v 1) ++ r.toBytes (v 2))
  ofBytes bs :=
    ![r.ofBytes (bs.take r.sizeof), r.ofBytes ((bs.drop r.sizeof).take r.sizeof),
      r.ofBytes (((bs.drop r.sizeof).drop r.sizeof).take r.sizeof)]
  length_toBytes v := by simp [r.length_toBytes]
  ofBytes_toBytes v := by
    have h0 := r.length_toBytes (v 0)
    have h1 := r.length_toBytes (v 1)
    have h2 := r.length_toBytes (v 2)
    have d0 : (r.toBytes (v 0) ++ (r.toBytes (v 1) ++ r.toBytes (v 2))).drop r.sizeof
        = r.toBytes (v 1) ++ r.toBytes (v 2) := by
      rw [← h0, List.drop_left]
    have d1 : (r.toBytes (v 1) ++ r.toBytes (v 2)).drop r.sizeof = r.toBytes (v 2) := by
      rw [← h1, List.drop_left]
    have t0 : (r.toBytes (v 0) ++ (r.toBytes (v 1) ++ r.toBytes (v 2))).take r.sizeof
        = r.toBytes (v 0) := by
      rw [← h0, List.take_left]
    have t1 : (r.toBytes (v 1) ++ r.toBytes (v 2)).take r.sizeof = r.toBytes (v 1) := by
      rw [← h1, List.take_left]
    have t2 : (r.toBytes (v 2)).take r.sizeof = r.toBytes (v 2) := by
      rw [← h2, List.take_length]
    funext i
    dsimp only
    rw [d0, d1, t0, t1, t2]
    fin_cases i <;> simp [r.ofBytes_toBytes]

/-- A fresh object over machine words, all of whose members are zero. -/
def zeroWords : DiscreteSpace Word64 Word64 :=
  { dt := 0, dth := 0, dti := 0
    corner := fun _ => 0, size := fun _ => 0, globalCorner := fun _ => 0
    globalSize := fun _ => 0, spacing := fun _ => 0, freq := fun _ => 0
    num := fun _ => 0, dim := fun _ => 0, lfg := fun _ => 0, ufg := fun _ => 0
    lng := fun _ => 0, ung := fun _ => 0, ignorable := fun _ => 0
    encodingStride := fun _ => 0, decodingStride := fun _ => 0, layers := fun _ => 0 }

/-- A sample state over machine words: every member holds the value of its position in
the record. -/
def sampleWords : DiscreteSpace Word64 Word64 :=
  { dt := 1, dth := 2, dti := 3
    corner := fun i => 10 + i.val, size := fun i => 20 + i.val
    globalCorner := fun i => 30 + i.val, globalSize := fun i => 40 + i.val
    spacing := fun i => 50 + i.val, freq := fun i => 60 + i.val
    num := fun i => 70 + i.val, dim := fun i => 80 + i.val
    lfg := fun i => 90 + i.val, ufg := fun i => 100 + i.val
    lng := fun i => 110 + i.val, ung := fun i => 120 + i.val
    ignorable := fun i => 130 + i.val, encodingStride := fun i => 140 + i.val
    decodingStride := fun i => 150 + i.val, layers := fun i => 160 + i.val }

/-- Cell counts `dim = {0,8,8,8}` of the example scenario. -/
def dims888 : Fin 4 → ℤ := ![0, 8, 8, 8]

/-- Cell counts of a slab with one cell along the first axis. -/
def dims188 : Fin 4 → ℤ := ![0, 1, 8, 8]

/-- Cell counts of a single cell. -/
def dims111 : Fin 4 → ℤ := ![0, 1, 1, 1]

/-- Cell counts of a cube of two cells per axis. -/
def dims222 : Fin 4 → ℤ := ![0, 2, 2, 2]

/-- Domain index of the first domain. -/
def dom000 : Fin 4 → ℤ := ![0, 0, 0, 0]

/-- The corner `(0,0,0)`. -/
def origin : Fin 3 → ℚ := ![0, 0, 0]

/-- The size `(1,1,1)`. -/
def unitSize : Fin 3 → ℚ := ![1, 1, 1]

/-- A size whose first component is negative. -/
def negSize : Fin 3 → ℚ := ![-1, 1, 1]

/-! ### IEEE 754 binary arithmetic -/

/-- An IEEE 754 binary interchange format: `prec` significant bits, largest exponent
`emax`, smallest normal exponent `1 - emax`. -/
structure BinaryFormat where
  prec : Nat
  emax : ℤ
  deriving DecidableEq, Repr

/-- A floating point datum: NaN, an infinity with its sign, or a finite number given by
its sign and its magnitude (so that the two zeros are distinct). Magnitudes are meant
to be non-negative numbers representable in the format; the operations below only produce
such. -/
inductive IEEE where
  | nan
  | inf (neg : Bool)
  | fin (neg : Bool) (mag : ℚ)
  deriving DecidableEq, Repr

/-- The integer nearest to `t`, the even one of the two when `t` lies half way. -/
def roundTiesEven (t : ℚ) : ℤ :=
  let k : ℤ := ⌊t⌋
  let r : ℚ := t - k
  if r < 1 / 2 then k
  else if 1 / 2 < r then k + 1
  else if k % 2 = 0 then k else k + 1

/-- Exponent of the unit in the last place available for a magnitude `x > 0`: `prec`
bits below the leading bit of `x`, and never below that of the subnormal numbers. -/
def quantum (fmt : BinaryFormat) (x : ℚ) : ℤ :=
  max (Int.log 2 x) (1 - fmt.emax) - ((fmt.prec : ℤ) - 1)

/-- The magnitude `x >= 0` rounded to a multiple of its quantum, to nearest, ties to
even, the exponent range being unbounded above. -/
def roundMag (fmt : BinaryFormat) (x : ℚ) : ℚ :=
  if x = 0 then 0
  else (roundTiesEven (x / (2 : ℚ) ^ quantum fmt x) : ℚ) * (2 : ℚ) ^ quantum fmt x

/-- The datum delivered for an exact result of sign `neg` and magnitude `x`: the rounded
magnitude, or the infinity of that sign when the rounded magnitude reaches `2^(emax+1)`. -/
def IEEE.round (fmt : BinaryFormat) (neg : Bool) (x : ℚ) : IEEE :=
  let y := roundMag fmt x
  if (2 : ℚ) ^ (fmt.emax + 1) ≤ y then IEEE.inf neg else IEEE.fin neg y

/-- Conversion of an integer to the format. -/
def IEEE.ofInt (fmt : BinaryFormat) (n : ℤ) : IEEE :=
  IEEE.round fmt (decide (n < 0)) (n.natAbs : ℚ)

/-- Product: NaN propagates, zero times infinity is NaN, the sign is the exclusive or of
the signs. -/
def IEEE.mul (fmt : BinaryFormat) : IEEE → IEEE → IEEE
  | IEEE.nan, _ => IEEE.nan
  | _, IEEE.nan => IEEE.nan
  | IEEE.inf s, IEEE.inf t => IEEE.inf (xor s t)
  | IEEE.inf s, IEEE.fin t n => if n = 0 then IEEE.nan else IEEE.inf (xor s t)
  | IEEE.fin s m, IEEE.inf t => if m = 0 then IEEE.nan else IEEE.inf (xor s t)
  | IEEE.fin s m, IEEE.fin t n => IEEE.round fmt (xor s t) (m * n)

/-- Quotient: NaN propagates, `0/0` and `inf/inf` are NaN, a non-zero number over zero is
an infinity, a finite number over an infinity is a zero. -/
def IEEE.div (fmt : BinaryFormat) : IEEE → IEEE → IEEE
  | IEEE.nan, _ => IEEE.nan
  | _, IEEE.nan => IEEE.nan
  | IEEE.inf _, IEEE.inf _ => IEEE.nan
  | IEEE.inf s, IEEE.fin t _ => IEEE.inf (xor s t)
  | IEEE.fin s _, IEEE.inf t => IEEE.fin (xor s t) 0
  | IEEE.fin s m, IEEE.fin t n =>
    if n = 0 then (if m = 0 then IEEE.nan else IEEE.inf (xor s t))
    else IEEE.round fmt (xor s t) (m / n)

/-- The rational number denoted by a sign and a magnitude. -/
def IEEE.signed (neg : Bool) (mag : ℚ) : ℚ := if neg then -mag else mag

/-- Sum: NaN propagates, infinities of opposite signs give NaN, an exact zero sum is `+0`
unless both terms are negative. -/
def IEEE.add (fmt : BinaryFormat) : IEEE → IEEE → IEEE
  | IEEE.nan, _ => IEEE.nan
  | _, IEEE.nan => IEEE.nan
  | IEEE.inf s, IEEE.inf t => if s = t then IEEE.inf s else IEEE.nan
  | IEEE.inf s, IEEE.fin _ _ => IEEE.inf s
  | IEEE.fin _ _, IEEE.inf t => IEEE.inf t
  | IEEE.fin s m, IEEE.fin t n =>
    let v : ℚ := IEEE.signed s m + IEEE.signed t n
    if v = 0 then IEEE.fin (s && t) 0 else IEEE.round fmt (decide (v < 0)) |v|

/-- The floating point number `+0`. -/
def IEEE.zero : IEEE := IEEE.fin false 0

@[simp]
theorem setAt_same {n : Nat} {α : Type} (a : Fin n → α) (i : Fin n) (v : α) :
    setAt a i v i = v := by
  simp [setAt]

@[simp]
theorem setAt_ne {n : Nat} {α : Type} (a : Fin n → α) (i j : Fin n) (v : α)
    (h : j ≠ i) : setAt a i v j = a j := by
  simp [setAt, h]

theorem Resize.boundsStep_eq {F : Type} (dim : Fin 4 → ℤ) (L : ℤ) (s : Space F)
    (i : Fin 4) :
    Resize.boundsStep dim L s i =
      { s with
        layers := setAt s.layers i (if dim i = 1 then 0 else L)
        lfg := setAt s.lfg i (if dim i = 1 then 1 else 1 - L)
        ufg := setAt s.ufg i (if dim i = 1 then 1 else dim i + L)
        lng := setAt s.lng i (if dim i = 1 then 1 else 0)
        ung := setAt s.ung i (if dim i = 1 then 1 else dim i + 1)
        num := setAt s.num i
          ((if dim i = 1 then 1 else dim i + L) - (if dim i = 1 then 1 else 1 - L) + 1) } := by
  unfold Resize.boundsStep
  by_cases h : dim i = 1 <;> simp [h]

theorem setAt_self {n : Nat} {α : Type} (a : Fin n → α) (i : Fin n) :
    setAt a i (a i) = a := by
  funext j
  by_cases h : j = i <;> simp [setAt, h]

theorem Resize.ignorableStep_eq {F : Type} (dim : Fin 4 → ℤ) (s : Space F) (i : Fin 4) :
    Resize.ignorableStep dim s i =
      { s with
        encodingStride := setAt s.encodingStride i (if dim i = 1 then 0 else s.encodingStride i)
        ignorable := setAt s.ignorable i (if dim i = 1 then 1 else s.ignorable i) } := by
  unfold Resize.ignorableStep
  by_cases h : dim i = 1 <;> simp [h, setAt_self]

@[simp]
theorem vecIndex_one : vecIndex 1 = 0 := rfl

@[simp]
theorem vecIndex_two : vecIndex 2 = 1 := rfl

@[simp]
theorem vecIndex_three : vecIndex 3 = 2 := rfl

theorem axis_cases (i : Fin 4) (hi : i ≠ 0) : i = 1 ∨ i = 2 ∨ i = 3 := by
  fin_cases i
  · exact absurd rfl hi
  all_goals simp

theorem Resize_layers {F : Type} (fa : FloatArith F) (s : Space F)
    (dim gdim dom : Fin 4 → ℤ) (gcorner gsize : Fin 3 → F)
    (L : ℤ) (i : Fin 4) (hi : i ≠ 0) :
    (Resize fa s dim gdim dom gcorner gsize L).layers i = if dim i = 1 then 0 else L := by
  simp only [Resize, axes, List.foldl, Resize.boundsStep_eq, Resize.ignorableStep_eq,
    Resize.metricStep]
  fin_cases i
  · exact absurd rfl hi
  all_goals simp

theorem Resize_lfg {F : Type} (fa : FloatArith F) (s : Space F)
    (dim gdim dom : Fin 4 → ℤ) (gcorner gsize : Fin 3 → F)
    (L : ℤ) (i : Fin 4) (hi : i ≠ 0) :
    (Resize fa s dim gdim dom gcorner gsize L).lfg i = if dim i = 1 then 1 else 1 - L := by
  simp only [Resize, axes, List.foldl, Resize.boundsStep_eq, Resize.ignorableStep_eq,
    Resize.metricStep]
  fin_cases i
  · exact absurd rfl hi
  all_goals simp

theorem Resize_ufg {F : Type} (fa : FloatArith F) (s : Space F)
    (dim gdim dom : Fin 4 → ℤ) (gcorner gsize : Fin 3 → F)
    (L : ℤ) (i : Fin 4) (hi : i ≠ 0) :
    (Resize fa s dim gdim dom gcorner gsize L).ufg i = if dim i = 1 then 1 else dim i + L := by
  simp only [Resize, axes, List.foldl, Resize.boundsStep_eq, Resize.ignorableStep_eq,
    Resize.metricStep]
  fin_cases i
  · exact absurd rfl hi
  all_goals simp

theorem Resize_lng {F : Type} (fa : FloatArith F) (s : Space F)
    (dim gdim dom : Fin 4 → ℤ) (gcorner gsize : Fin 3 → F)
    (L : ℤ) (i : Fin 4) (hi : i ≠ 0) :
    (Resize fa s dim gdim dom gcorner gsize L).lng i = if dim i = 1 then 1 else 0 := by
  simp only [Resize, axes, List.foldl, Resize.boundsStep_eq, Resize.ignorableStep_eq,
    Resize.metricStep]
  fin_cases i
  · exact absurd rfl hi
  all_goals simp

theorem Resize_ung {F : Type} (fa : FloatArith F) (s : Space F)
    (dim gdim dom : Fin 4 → ℤ) (gcorner gsize : Fin 3 → F)
    (L : ℤ) (i : Fin 4) (hi : i ≠ 0) :
    (Resize fa s dim gdim dom gcorner gsize L).ung i = if dim i = 1 then 1 else dim i + 1 := by
  simp only [Resize, axes, List.foldl, Resize.boundsStep_eq, Resize.ignorableStep_eq,
    Resize.metricStep]
  fin_cases i
  · exact absurd rfl hi
  all_goals simp

theorem Resize_num {F : Type} (fa : FloatArith F) (s : Space F)
    (dim gdim dom : Fin 4 → ℤ) (gcorner gsize : Fin 3 → F)
    (L : ℤ) (i : Fin 4) (hi : i ≠ 0) :
    (Resize fa s dim gdim dom gcorner gsize L).num i
      = (Resize fa s dim gdim dom gcorner gsize L).ufg i
        - (Resize fa s dim gdim dom gcorner gsize L).lfg i + 1 := by
  simp only [Resize, axes, List.foldl, Resize.boundsStep_eq, Resize.ignorableStep_eq,
    Resize.metricStep]
  fin_cases i
  · exact absurd rfl hi
  all_goals simp

theorem Resize_dim {F : Type} (fa : FloatArith F) (s : Space F)
    (dim gdim dom : Fin 4 → ℤ) (gcorner gsize : Fin 3 → F)
    (L : ℤ) (i : Fin 4) (hi : i ≠ 0) :
    (Resize fa s dim gdim dom gcorner gsize L).dim i = dim i := by
  simp only [Resize, axes, List.foldl, Resize.boundsStep_eq, Resize.ignorableStep_eq,
    Resize.metricStep]
  fin_cases i
  · exact absurd rfl hi
  all_goals simp

theorem Resize_decodingStride {F : Type} (fa : FloatArith F) (s : Space F)
    (dim gdim dom : Fin 4 → ℤ) (gcorner gsize : Fin 3 → F)
    (L : ℤ) :
    (Resize fa s dim gdim dom gcorner gsize L).decodingStride 1
        = (Resize fa s dim gdim dom gcorner gsize L).num 2
          * (Resize fa s dim gdim dom gcorner gsize L).num 3
      ∧ (Resize fa s dim gdim dom gcorner gsize L).decodingStride 2
        = (Resize fa s dim gdim dom gcorner gsize L).num 3
      ∧ (Resize fa s dim gdim dom gcorner gsize L).decodingStride 3 = 1 := by
  simp only [Resize, axes, List.foldl, Resize.boundsStep_eq, Resize.ignorableStep_eq,
    Resize.metricStep]
  refine ⟨?_, ?_, ?_⟩ <;> simp

theorem Resize_encodingStride {F : Type} (fa : FloatArith F) (s : Space F)
    (dim gdim dom : Fin 4 → ℤ) (gcorner gsize : Fin 3 → F)
    (L : ℤ) (i : Fin 4) (hi : i ≠ 0) :
    (Resize fa s dim gdim dom gcorner gsize L).encodingStride i
      = if dim i = 1 then 0 else (Resize fa s dim gdim dom gcorner gsize L).decodingStride i := by
  simp only [Resize, axes, List.foldl, Resize.boundsStep_eq, Resize.ignorableStep_eq,
    Resize.metricStep]
  fin_cases i
  · exact absurd rfl hi
  all_goals simp

theorem Resize_ignorable {F : Type} (fa : FloatArith F) (s : Space F)
    (dim gdim dom : Fin 4 → ℤ) (gcorner gsize : Fin 3 → F)
    (L : ℤ) (i : Fin 4) (hi : i ≠ 0) :
    (Resize fa s dim gdim dom gcorner gsize L).ignorable i
      = if dim i = 1 then 1 else s.ignorable i := by
  simp only [Resize, axes, List.foldl, Resize.boundsStep_eq, Resize.ignorableStep_eq,
    Resize.metricStep]
  fin_cases i
  · exact absurd rfl hi
  all_goals simp

theorem Resize_spacing {F : Type} (fa : FloatArith F) (s : Space F)
    (dim gdim dom : Fin 4 → ℤ) (gcorner gsize : Fin 3 → F)
    (L : ℤ) (i : Fin 4) (hi : i ≠ 0) :
    (Resize fa s dim gdim dom gcorner gsize L).spacing (vecIndex i)
      = fa.div (gsize (vecIndex i)) (fa.ofInt (gdim i)) := by
  simp only [Resize, axes, List.foldl, Resize.boundsStep_eq, Resize.ignorableStep_eq,
    Resize.metricStep]
  fin_cases i
  · exact absurd rfl hi
  all_goals simp

theorem Resize_size {F : Type} (fa : FloatArith F) (s : Space F)
    (dim gdim dom : Fin 4 → ℤ) (gcorner gsize : Fin 3 → F)
    (L : ℤ) (i : Fin 4) (hi : i ≠ 0) :
    (Resize fa s dim gdim dom gcorner gsize L).size (vecIndex i)
      = fa.mul (fa.ofInt (dim i))
        ((Resize fa s dim gdim dom gcorner gsize L).spacing (vecIndex i)) := by
  simp only [Resize, axes, List.foldl, Resize.boundsStep_eq, Resize.ignorableStep_eq,
    Resize.metricStep]
  fin_cases i
  · exact absurd rfl hi
  all_goals simp

theorem tdiv_radix (n2 n3 a b d : ℤ) (ha : 0 ≤ a) (hb0 : 0 ≤ b) (hb : b < n2)
    (hd0 : 0 ≤ d) (hd : d < n3) :
    0 ≤ a * (n2 * n3) + b * n3 + d
      ∧ Int.tdiv (a * (n2 * n3) + b * n3 + d) (n2 * n3) = a
      ∧ Int.tdiv (Int.tmod (a * (n2 * n3) + b * n3 + d) (n2 * n3)) n3 = b
      ∧ Int.tdiv (Int.tmod (a * (n2 * n3) + b * n3 + d) n3) 1 = d := by
  have h3 : 0 < n3 := by omega
  have h2 : 0 < n2 := by omega
  have h23 : 0 < n2 * n3 := mul_pos h2 h3
  have hlow : 0 ≤ b * n3 + d := by positivity
  have hup : b * n3 + d < n2 * n3 := by nlinarith
  have hc : 0 ≤ a * (n2 * n3) + b * n3 + d := by
    have : 0 ≤ a * (n2 * n3) := mul_nonneg ha h23.le
    omega
  have e1 : (a * (n2 * n3) + b * n3 + d) / (n2 * n3) = a
      ∧ (a * (n2 * n3) + b * n3 + d) % (n2 * n3) = b * n3 + d := by
    rw [Int.ediv_emod_unique h23]
    exact ⟨by ring, hlow, hup⟩
  have e2 : (b * n3 + d) / n3 = b ∧ (b * n3 + d) % n3 = d := by
    rw [Int.ediv_emod_unique h3]
    exact ⟨by ring, hd0, hd⟩
  have e3 : (a * (n2 * n3) + b * n3 + d) / n3 = a * n2 + b
      ∧ (a * (n2 * n3) + b * n3 + d) % n3 = d := by
    rw [Int.ediv_emod_unique h3]
    exact ⟨by ring, hd0, hd⟩
  refine ⟨hc, ?_, ?_, ?_⟩
  · rw [Int.tdiv_eq_ediv hc h23.le, e1.1]
  · rw [Int.tmod_eq_emod hc h23.le, e1.2, Int.tdiv_eq_ediv hlow h3.le, e2.1]
  · rw [Int.tmod_eq_emod hc h3.le, e3.2, Int.tdiv_one]

theorem radix_lt (n1 n2 n3 a b d : ℤ) (ha : a < n1) (hb0 : 0 ≤ b) (hb : b < n2)
    (hd0 : 0 ≤ d) (hd : d < n3) :
    a * (n2 * n3) + b * n3 + d < n1 * n2 * n3 := by
  have h3 : 0 < n3 := by omega
  have h2 : 0 < n2 := by omega
  have h23 : 0 < n2 * n3 := mul_pos h2 h3
  have hup : b * n3 + d < n2 * n3 := by nlinarith
  have : (a + 1) * (n2 * n3) ≤ n1 * (n2 * n3) :=
    mul_le_mul_of_nonneg_right (by omega) h23.le
  nlinarith

theorem tdiv_digits (n1 n2 n3 c : ℤ) (h2 : 1 ≤ n2) (h3 : 1 ≤ n3) (hc0 : 0 ≤ c)
    (hc : c < n1 * n2 * n3) :
    (0 ≤ Int.tdiv c (n2 * n3) ∧ Int.tdiv c (n2 * n3) < n1)
      ∧ (0 ≤ Int.tdiv (Int.tmod c (n2 * n3)) n3 ∧ Int.tdiv (Int.tmod c (n2 * n3)) n3 < n2)
      ∧ (0 ≤ Int.tdiv (Int.tmod c n3) 1 ∧ Int.tdiv (Int.tmod c n3) 1 < n3)
      ∧ Int.tdiv c (n2 * n3) * (n2 * n3) + Int.tdiv (Int.tmod c (n2 * n3)) n3 * n3
          + Int.tdiv (Int.tmod c n3) 1 = c := by
  have p3 : 0 < n3 := by omega
  have p2 : 0 < n2 := by omega
  have h23 : 0 < n2 * n3 := mul_pos p2 p3
  have hm0 : 0 ≤ c % (n2 * n3) := Int.emod_nonneg c h23.ne'
  have hm1 : c % (n2 * n3) < n2 * n3 := Int.emod_lt_of_pos c h23
  rw [Int.tdiv_eq_ediv hc0 h23.le, Int.tmod_eq_emod hc0 h23.le, Int.tmod_eq_emod hc0 p3.le,
    Int.tdiv_one, Int.tdiv_eq_ediv hm0 p3.le]
  have hmm : c % (n2 * n3) % n3 = c % n3 := Int.emod_emod_of_dvd c (Dvd.intro_left n2 rfl)
  have d1 := Int.ediv_add_emod c (n2 * n3)
  have d2 := Int.ediv_add_emod (c % (n2 * n3)) n3
  rw [hmm] at d2
  refine ⟨⟨Int.ediv_nonneg hc0 h23.le, ?_⟩, ⟨Int.ediv_nonneg hm0 p3.le, ?_⟩,
    ⟨Int.emod_nonneg c p3.ne', Int.emod_lt_of_pos c p3⟩, ?_⟩
  · apply Int.ediv_lt_of_lt_mul h23
    rw [← mul_assoc]; exact hc
  · apply Int.ediv_lt_of_lt_mul p3
    exact hm1
  · linarith

/-- Offsets inside the stored box are encoded with the decoding strides: a zeroed encoding
stride only occurs on an axis whose box has a single index. -/
theorem encode_term {F : Type} (r : Space F) (i : Fin 4) (x : ℤ)
    (hn : r.num i = r.ufg i - r.lfg i + 1)
    (he : r.encodingStride i = r.decodingStride i ∨ r.num i = 1)
    (hx : r.lfg i ≤ x ∧ x ≤ r.ufg i) :
    (x - r.lfg i) * r.encodingStride i = (x - r.lfg i) * r.decodingStride i := by
  rcases he with h | h
  · rw [h]
  · have : x - r.lfg i = 0 := by omega
    rw [this, zero_mul, zero_mul]

theorem encode_decode_of_geometry {F : Type} (r : Space F)
    (hn : ∀ i : Fin 4, i ≠ 0 → r.num i = r.ufg i - r.lfg i + 1)
    (hpos : ∀ i : Fin 4, i ≠ 0 → 1 ≤ r.num i)
    (hd1 : r.decodingStride 1 = r.num 2 * r.num 3) (hd2 : r.decodingStride 2 = r.num 3)
    (hd3 : r.decodingStride 3 = 1)
    (he : ∀ i : Fin 4, i ≠ 0 → r.encodingStride i = r.decodingStride i ∨ r.num i = 1) :
    (∀ i j k : ℤ, (i, j, k) ∈ storedBox r →
        (0 ≤ EncodeCell r i j k ∧ EncodeCell r i j k < r.num 1 * r.num 2 * r.num 3)
          ∧ DecodeCell r (EncodeCell r i j k) = (i, j, k))
      ∧ ∀ c : ℤ, 0 ≤ c → c < r.num 1 * r.num 2 * r.num 3 →
        DecodeCell r c ∈ storedBox r
          ∧ EncodeCell r (DecodeCell r c).1 (DecodeCell r c).2.1 (DecodeCell r c).2.2 = c := by
  have n1 := hn 1 (by decide)
  have n2 := hn 2 (by decide)
  have n3 := hn 3 (by decide)
  have p2 := hpos 2 (by decide)
  have p3 := hpos 3 (by decide)
  constructor
  · intro i j k hbox
    obtain ⟨hi, hj, hk⟩ := hbox
    simp only at hi hj hk
    have hE : EncodeCell r i j k
        = (i - r.lfg 1) * (r.num 2 * r.num 3) + (j - r.lfg 2) * r.num 3 + (k - r.lfg 3) := by
      unfold EncodeCell
      rw [encode_term r 1 i n1 (he 1 (by decide)) hi, encode_term r 2 j n2 (he 2 (by decide)) hj,
        encode_term r 3 k n3 (he 3 (by decide)) hk, hd1, hd2, hd3, mul_one]
    obtain ⟨h0, q1, q2, q3⟩ := tdiv_radix (r.num 2) (r.num 3) (i - r.lfg 1) (j - r.lfg 2)
      (k - r.lfg 3) (by omega) (by omega) (by omega) (by omega) (by omega)
    have hlt := radix_lt (r.num 1) (r.num 2) (r.num 3) (i - r.lfg 1) (j - r.lfg 2)
      (k - r.lfg 3) (by omega) (by omega) (by omega) (by omega) (by omega)
    refine ⟨⟨by rw [hE]; exact h0, by rw [hE]; exact hlt⟩, ?_⟩
    unfold DecodeCell
    rw [hE, hd1, hd2, hd3, q1, q2, q3]
    ext <;> simp
  · intro c hc0 hc
    obtain ⟨b1, b2, b3, hsum⟩ := tdiv_digits (r.num 1) (r.num 2) (r.num 3) c p2 p3 hc0 hc
    have hbox : DecodeCell r c ∈ storedBox r := by
      unfold DecodeCell storedBox
      rw [hd1, hd2, hd3]
      refine ⟨⟨?_, ?_⟩, ⟨?_, ?_⟩, ⟨?_, ?_⟩⟩ <;> simp only <;> omega
    refine ⟨hbox, ?_⟩
    obtain ⟨hi, hj, hk⟩ := hbox
    unfold EncodeCell
    rw [encode_term r 1 _ n1 (he 1 (by decide)) hi, encode_term r 2 _ n2 (he 2 (by decide)) hj,
      encode_term r 3 _ n3 (he 3 (by decide)) hk]
    unfold DecodeCell
    simp only [hd1, hd2, hd3, add_sub_cancel_left, mul_one]
    exact hsum

theorem Resize_num_pos {F : Type} (fa : FloatArith F) (s : Space F)
    (dim gdim dom : Fin 4 → ℤ) (gcorner gsize : Fin 3 → F)
    (L : ℤ) (hdim : ∀ i : Fin 4, i ≠ 0 → 1 ≤ dim i) (hL : 0 ≤ L) (i : Fin 4) (hi : i ≠ 0) :
    1 ≤ (Resize fa s dim gdim dom gcorner gsize L).num i
      ∧ (dim i = 1 → (Resize fa s dim gdim dom gcorner gsize L).num i = 1) := by
  have hd := hdim i hi
  rw [Resize_num _ _ _ _ _ _ _ _ i hi, Resize_ufg _ _ _ _ _ _ _ _ i hi,
    Resize_lfg _ _ _ _ _ _ _ _ i hi]
  by_cases h1 : dim i = 1
  · simp [h1]
  · simp only [h1, if_false]
    exact ⟨by omega, fun h => absurd h (by simp)⟩

/-! ## Streams -/

theorem read_append {α : Type} (r : RawRep α) (x old : α) (rest : List Byte) :
    ifstream.read { data := r.toBytes x ++ rest, failbit := false } r old
      = (x, { data := rest, failbit := false }) := by
  have hlen := r.length_toBytes x
  have htake : (r.toBytes x ++ rest).take r.sizeof = r.toBytes x := by
    rw [← hlen, List.take_left]
  have hdrop : (r.toBytes x ++ rest).drop r.sizeof = rest := by
    rw [← hlen, List.drop_left]
  simp [ifstream.read, htake, hdrop, hlen, r.ofBytes_toBytes]

theorem chunk_flatten (sz : Nat) :
    ∀ (l : List (List Byte)), (∀ c ∈ l, c.length = sz) → ∀ (i : Nat) (hi : i < l.length),
      (l.flatten.drop (i * sz)).take sz = l[i]
  | [], _, i, hi => absurd hi (Nat.not_lt_zero i)
  | c :: cs, hl, 0, _ => by
    have hc : c.length = sz := hl c (List.mem_cons_self c cs)
    simp only [List.flatten_cons, Nat.zero_mul, List.drop_zero, List.getElem_cons_zero]
    rw [← hc, List.take_left]
  | c :: cs, hl, i + 1, hi => by
    have hc : c.length = sz := hl c (List.mem_cons_self c cs)
    have hcs : ∀ d ∈ cs, d.length = sz := fun d hd => hl d (List.mem_cons_of_mem c hd)
    have hi2 : i < cs.length := Nat.lt_of_succ_lt_succ hi
    have hsplit : (i + 1) * sz = c.length + i * sz := by rw [hc]; ring
    simp only [List.flatten_cons, List.getElem_cons_succ]
    rw [hsplit, List.drop_append]
    exact chunk_flatten sz cs hcs i hi2

theorem length_flatten_chunks (sz : Nat) :
    ∀ (l : List (List Byte)), (∀ c ∈ l, c.length = sz) → l.flatten.length = l.length * sz
  | [], _ => by simp
  | c :: cs, hl => by
    have hc : c.length = sz := hl c (List.mem_cons_self c cs)
    have hcs : ∀ d ∈ cs, d.length = sz := fun d hd => hl d (List.mem_cons_of_mem c hd)
    simp only [List.flatten_cons, List.length_append, List.length_cons,
      length_flatten_chunks sz cs hcs, hc]
    ring

theorem arrayBytes_length {α : Type} (r : RawRep α) {n : Nat} (a : Fin n → α) :
    (arrayBytes r a).length = n * r.sizeof := by
  unfold arrayBytes
  rw [length_flatten_chunks r.sizeof]
  · simp
  · intro c hc
    obtain ⟨i, _, rfl⟩ := List.mem_map.mp hc
    exact r.length_toBytes (a i)

theorem elemBytes_arrayBytes {α : Type} (r : RawRep α) {n : Nat} (a : Fin n → α) (i : Fin n) :
    elemBytes r (arrayBytes r a) i.val = r.toBytes (a i) := by
  unfold elemBytes arrayBytes
  rw [chunk_flatten r.sizeof _ _ i.val (by simp)]
  · simp
  · intro c hc
    obtain ⟨j, _, rfl⟩ := List.mem_map.mp hc
    exact r.length_toBytes (a j)

theorem readArray_append {α : Type} (r : RawRep α) {n : Nat} (a old : Fin n → α)
    (rest : List Byte) :
    ifstream.readArray { data := arrayBytes r a ++ rest, failbit := false } r old
      = (a, { data := rest, failbit := false }) := by
  have hlen := arrayBytes_length r a
  have htake : (arrayBytes r a ++ rest).take (n * r.sizeof) = arrayBytes r a := by
    rw [← hlen, List.take_left]
  have hdrop : (arrayBytes r a ++ rest).drop (n * r.sizeof) = rest := by
    rw [← hlen, List.drop_left]
  simp only [ifstream.readArray, htake, hdrop, hlen, Bool.false_eq_true, if_false, if_true,
    elemBytes_arrayBytes, r.ofBytes_toBytes]

theorem WriteCheckpoint_eq {F I : Type} (fr : RawRep F) (vr : RawRep (Fin 3 → F))
    (ir : RawRep I) (s : DiscreteSpace F I) (pre : List Byte) :
    WriteCheckpoint fr vr ir s { data := pre }
      = { data := pre ++ recordLayout fr vr ir s } := by
  simp only [WriteCheckpoint, ofstream.write, ofstream.writeArray, recordLayout,
    List.append_assoc]

theorem recordLayout_length {F I : Type} (fr : RawRep F) (vr : RawRep (Fin 3 → F))
    (ir : RawRep I) (s : DiscreteSpace F I) :
    (recordLayout fr vr ir s).length = 3 * fr.sizeof + 6 * vr.sizeof + 10 * (4 * ir.sizeof) := by
  simp only [recordLayout, List.length_append, arrayBytes_length, fr.length_toBytes,
    vr.length_toBytes]
  ring

theorem ReadCheckpoint_recordLayout {F I : Type} (fr : RawRep F) (vr : RawRep (Fin 3 → F))
    (ir : RawRep I) (s t : DiscreteSpace F I) (rest : List Byte) :
    ReadCheckpoint fr vr ir t { data := recordLayout fr vr ir s ++ rest, failbit := false }
      = (s, { data := rest, failbit := false }) := by
  simp only [ReadCheckpoint, recordLayout, List.append_assoc, read_append, readArray_append]

/-! ## Rounding -/

/-- C1: for every call of `Resize` and every spatial axis `i` with `dim[i] = 1`, whatever
the ghost depth, the result has `layers[i] = 0`, `lfg[i] = ufg[i] = 1`,
`lng[i] = ung[i] = 1`, `num[i] = 1`, `encodingStride[i] = 0` and `ignorable[i] = 1`. -/
theorem C1_ignorable_axis {F : Type} (fa : FloatArith F) (s : Space F)
    (dim gdim dom : Fin 4 → ℤ) (gcorner gsize : Fin 3 → F)
    (L : ℤ) (i : Fin 4) (hi : i ≠ 0) (hd : dim i = 1) :
    (Resize fa s dim gdim dom gcorner gsize L).layers i = 0
      ∧ (Resize fa s dim gdim dom gcorner gsize L).lfg i = 1
      ∧ (Resize fa s dim gdim dom gcorner gsize L).ufg i = 1
      ∧ (Resize fa s dim gdim dom gcorner gsize L).lng i = 1
      ∧ (Resize fa s dim gdim dom gcorner gsize L).ung i = 1
      ∧ (Resize fa s dim gdim dom gcorner gsize L).num i = 1
      ∧ (Resize fa s dim gdim dom gcorner gsize L).encodingStride i = 0
      ∧ (Resize fa s dim gdim dom gcorner gsize L).ignorable i = 1 := by
  have hnum := Resize_num fa s dim gdim dom gcorner gsize L i hi
  rw [Resize_ufg _ _ _ _ _ _ _ _ i hi, Resize_lfg _ _ _ _ _ _ _ _ i hi] at hnum
  rw [Resize_layers _ _ _ _ _ _ _ _ i hi, Resize_lfg _ _ _ _ _ _ _ _ i hi,
    Resize_ufg _ _ _ _ _ _ _ _ i hi, Resize_lng _ _ _ _ _ _ _ _ i hi,
    Resize_ung _ _ _ _ _ _ _ _ i hi, Resize_encodingStride _ _ _ _ _ _ _ _ i hi,
    Resize_ignorable _ _ _ _ _ _ _ _ i hi, hnum]
  simp [hd]

/-- Witness of C1: the first axis of the slab `dim = {0,1,8,8}` with ghost depth 2. -/
theorem C1_ignorable_axis_witness :
    (1 : Fin 4) ≠ 0 ∧ dims188 1 = 1
      ∧ (Resize exactArith zeroSpace dims188 dims188 dom000 origin unitSize 2).layers 1 = 0
      ∧ (Resize exactArith zeroSpace dims188 dims188 dom000 origin unitSize 2).lfg 1 = 1
      ∧ (Resize exactArith zeroSpace dims188 dims188 dom000 origin unitSize 2).ufg 1 = 1
      ∧ (Resize exactArith zeroSpace dims188 dims188 dom000 origin unitSize 2).lng 1 = 1
      ∧ (Resize exactArith zeroSpace dims188 dims188 dom000 origin unitSize 2).ung 1 = 1
      ∧ (Resize exactArith zeroSpace dims188 dims188 dom000 origin unitSize 2).num 1 = 1
      ∧ (Resize exactArith zeroSpace dims188 dims188 dom000 origin unitSize 2).encodingStride 1 = 0
      ∧ (Resize exactArith zeroSpace dims188 dims188 dom000 origin unitSize 2).ignorable 1 = 1 :=
  ⟨by decide, by decide,
    C1_ignorable_axis exactArith zeroSpace dims188 dims188 dom000 origin unitSize 2 1 (by decide)
      (by decide)⟩

/-- C2: for every `Resize` with ghost depth `L` and every spatial axis `i` with
`dim[i] ≠ 1`, the result has `layers[i] = L`, `lfg[i] = 1 - L`, `ufg[i] = dim[i] + L`,
`lng[i] = 0`, `ung[i] = dim[i] + 1`, `num[i] = dim[i] + 2*L`, and `spacing[i]` is the
quotient of `globalSize[i]` by `gdim[i]` in the arithmetic of `tw::Float`; in exact
rational arithmetic, `spacing[i] = globalSize[i]/gdim[i]`.
In particular the constructor call `DiscreteSpace(8,8,8,(0,0,0),(1,1,1),2)` gives
`num = 12`, `lfg = -1`, `ufg = 10` on each of the three axes in any arithmetic, and
`spacing = 1/8` in exact rational arithmetic. -/
theorem C2_ghost_padded_axis :
    (∀ (F : Type) (fa : FloatArith F) (s : Space F) (dim gdim dom : Fin 4 → ℤ)
        (gcorner gsize : Fin 3 → F) (L : ℤ) (i : Fin 4), i ≠ 0 → dim i ≠ 1 →
        (Resize fa s dim gdim dom gcorner gsize L).layers i = L
          ∧ (Resize fa s dim gdim dom gcorner gsize L).lfg i = 1 - L
          ∧ (Resize fa s dim gdim dom gcorner gsize L).ufg i = dim i + L
          ∧ (Resize fa s dim gdim dom gcorner gsize L).lng i = 0
          ∧ (Resize fa s dim gdim dom gcorner gsize L).ung i = dim i + 1
          ∧ (Resize fa s dim gdim dom gcorner gsize L).num i = dim i + 2 * L
          ∧ (Resize fa s dim gdim dom gcorner gsize L).spacing (vecIndex i)
              = fa.div (gsize (vecIndex i)) (fa.ofInt (gdim i)))
      ∧ (∀ (s : Space ℚ) (dim gdim dom : Fin 4 → ℤ) (gcorner gsize : Fin 3 → ℚ) (L : ℤ)
        (i : Fin 4), i ≠ 0 →
        (Resize exactArith s dim gdim dom gcorner gsize L).spacing (vecIndex i)
          = gsize (vecIndex i) / (gdim i : ℚ))
      ∧ (∀ (F : Type) (fa : FloatArith F) (mem : Space F) (corner size : Fin 3 → F)
        (i : Fin 4), i ≠ 0 →
        (DiscreteSpace.ctor6 fa mem 8 8 8 corner size 2).num i = 12
          ∧ (DiscreteSpace.ctor6 fa mem 8 8 8 corner size 2).lfg i = -1
          ∧ (DiscreteSpace.ctor6 fa mem 8 8 8 corner size 2).ufg i = 10)
      ∧ ∀ (mem : Space ℚ) (i : Fin 4), i ≠ 0 →
        (DiscreteSpace.ctor6 exactArith mem 8 8 8 origin unitSize 2).num i = 12
          ∧ (DiscreteSpace.ctor6 exactArith mem 8 8 8 origin unitSize 2).lfg i = -1
          ∧ (DiscreteSpace.ctor6 exactArith mem 8 8 8 origin unitSize 2).ufg i = 10
          ∧ (DiscreteSpace.ctor6 exactArith mem 8 8 8 origin unitSize 2).spacing (vecIndex i)
            = 1 / 8 := by
  have hex : ∀ (F : Type) (fa : FloatArith F) (mem : Space F) (corner size : Fin 3 → F)
      (i : Fin 4), i ≠ 0 →
      (DiscreteSpace.ctor6 fa mem 8 8 8 corner size 2).num i = 12
        ∧ (DiscreteSpace.ctor6 fa mem 8 8 8 corner size 2).lfg i = -1
        ∧ (DiscreteSpace.ctor6 fa mem 8 8 8 corner size 2).ufg i = 10 := by
    intro F fa mem corner size i hi
    unfold DiscreteSpace.ctor6
    have hnum := Resize_num fa mem ![0, 8, 8, 8] ![0, 8, 8, 8] ![0, 0, 0, 0] corner size 2 i hi
    rw [Resize_ufg _ _ _ _ _ _ _ _ i hi, Resize_lfg _ _ _ _ _ _ _ _ i hi] at hnum
    rw [Resize_lfg _ _ _ _ _ _ _ _ i hi, Resize_ufg _ _ _ _ _ _ _ _ i hi, hnum]
    rcases axis_cases i hi with rfl | rfl | rfl <;> norm_num
  refine ⟨?_, ?_, hex, ?_⟩
  · intro F fa s dim gdim dom gcorner gsize L i hi hd
    have hnum := Resize_num fa s dim gdim dom gcorner gsize L i hi
    rw [Resize_ufg _ _ _ _ _ _ _ _ i hi, Resize_lfg _ _ _ _ _ _ _ _ i hi] at hnum
    rw [Resize_layers _ _ _ _ _ _ _ _ i hi, Resize_lfg _ _ _ _ _ _ _ _ i hi,
      Resize_ufg _ _ _ _ _ _ _ _ i hi, Resize_lng _ _ _ _ _ _ _ _ i hi,
      Resize_ung _ _ _ _ _ _ _ _ i hi, Resize_spacing _ _ _ _ _ _ _ _ i hi, hnum]
    refine ⟨?_, ?_, ?_, ?_, ?_, ?_, ?_⟩ <;> simp [hd]
    ring
  · intro s dim gdim dom gcorner gsize L i hi
    rw [Resize_spacing _ _ _ _ _ _ _ _ i hi]
    rfl
  · intro mem i hi
    obtain ⟨h1, h2, h3⟩ := hex ℚ exactArith mem origin unitSize i hi
    refine ⟨h1, h2, h3, ?_⟩
    unfold DiscreteSpace.ctor6
    rw [Resize_spacing _ _ _ _ _ _ _ _ i hi]
    rcases axis_cases i hi with rfl | rfl | rfl <;> norm_num [unitSize, exactArith]

/-- Witness of C2: the second axis of the slab `dim = {0,1,8,8}` with ghost depth 2, and
the first axis of the example scenario. -/
theorem C2_ghost_padded_axis_witness :
    ((2 : Fin 4) ≠ 0 ∧ dims188 2 ≠ 1
        ∧ (Resize exactArith zeroSpace dims188 dims188 dom000 origin unitSize 2).num 2
          = dims188 2 + 2 * 2)
      ∧ (DiscreteSpace.ctor6 exactArith zeroSpace 8 8 8 origin unitSize 2).num 1 = 12
      ∧ (DiscreteSpace.ctor6 exactArith zeroSpace 8 8 8 origin unitSize 2).spacing (vecIndex 1)
        = 1 / 8 :=
  ⟨⟨by decide, by decide,
      (C2_ghost_padded_axis.1 ℚ exactArith zeroSpace dims188 dims188 dom000 origin unitSize 2 2
        (by decide) (by decide)).2.2.2.2.2.1⟩,
    (C2_ghost_padded_axis.2.2.2 zeroSpace 1 (by decide)).1,
    (C2_ghost_padded_axis.2.2.2 zeroSpace 1 (by decide)).2.2.2⟩

/-- C3: after any `Resize`, `num[i] = ufg[i] - lfg[i] + 1` on each spatial axis,
`decodingStride[1] = num[2]*num[3]`, `decodingStride[2] = num[3]`, `decodingStride[3] = 1`,
and `encodingStride[i] = decodingStride[i]` on every axis with `dim[i] ≠ 1`. -/
theorem C3_stride_consistency {F : Type} (fa : FloatArith F) (s : Space F)
    (dim gdim dom : Fin 4 → ℤ) (gcorner gsize : Fin 3 → F) (L : ℤ) :
    (∀ i : Fin 4, i ≠ 0 →
        (Resize fa s dim gdim dom gcorner gsize L).num i
          = (Resize fa s dim gdim dom gcorner gsize L).ufg i
            - (Resize fa s dim gdim dom gcorner gsize L).lfg i + 1)
      ∧ (Resize fa s dim gdim dom gcorner gsize L).decodingStride 1
          = (Resize fa s dim gdim dom gcorner gsize L).num 2
            * (Resize fa s dim gdim dom gcorner gsize L).num 3
      ∧ (Resize fa s dim gdim dom gcorner gsize L).decodingStride 2
          = (Resize fa s dim gdim dom gcorner gsize L).num 3
      ∧ (Resize fa s dim gdim dom gcorner gsize L).decodingStride 3 = 1
      ∧ ∀ i : Fin 4, i ≠ 0 → dim i ≠ 1 →
          (Resize fa s dim gdim dom gcorner gsize L).encodingStride i
            = (Resize fa s dim gdim dom gcorner gsize L).decodingStride i := by
  obtain ⟨h1, h2, h3⟩ := Resize_decodingStride fa s dim gdim dom gcorner gsize L
  refine ⟨fun i hi => Resize_num fa s dim gdim dom gcorner gsize L i hi, h1, h2, h3, ?_⟩
  intro i hi hd
  rw [Resize_encodingStride _ _ _ _ _ _ _ _ i hi, if_neg hd]

/-- Witness of C3: the slab `dim = {0,1,8,8}` with ghost depth 2, whose third axis is not
ignorable. -/
theorem C3_stride_consistency_witness :
    (3 : Fin 4) ≠ 0 ∧ dims188 3 ≠ 1
      ∧ (Resize exactArith zeroSpace dims188 dims188 dom000 origin unitSize 2).encodingStride 3
        = (Resize exactArith zeroSpace dims188 dims188 dom000 origin unitSize 2).decodingStride 3 :=
  ⟨by decide, by decide,
    (C3_stride_consistency exactArith zeroSpace dims188 dims188 dom000 origin unitSize 2).2.2.2.2 3
      (by decide) (by decide)⟩

/-- C10: after `Resize` with `dim[i] >= 1`, on a spatial axis with `dim[i] ≠ 1` the
near-ghost bounds lie inside the full-ghost bounds (`lfg[i] <= lng[i]` and
`ung[i] <= ufg[i]`) exactly when `ghostCellLayers >= 1`, and with `ghostCellLayers = 0`
the near-ghost indices `0` and `dim[i]+1` fall outside `lfg[i]..ufg[i]`; on an axis with
`dim[i] = 1` the four bounds equal 1; and when `ghostCellLayers >= 0` every interior index
`1..dim[i]` lies within `lfg[i]..ufg[i]`. -/
theorem C10_near_ghost_bounds {F : Type} (fa : FloatArith F) (s : Space F)
    (dim gdim dom : Fin 4 → ℤ) (gcorner gsize : Fin 3 → F) (L : ℤ) (i : Fin 4) (hi : i ≠ 0) :
    (dim i ≠ 1 →
        (((Resize fa s dim gdim dom gcorner gsize L).lfg i
              ≤ (Resize fa s dim gdim dom gcorner gsize L).lng i
            ∧ (Resize fa s dim gdim dom gcorner gsize L).ung i
              ≤ (Resize fa s dim gdim dom gcorner gsize L).ufg i) ↔ 1 ≤ L)
          ∧ (L = 0 →
            (Resize fa s dim gdim dom gcorner gsize L).lng i = 0
              ∧ 0 < (Resize fa s dim gdim dom gcorner gsize L).lfg i
              ∧ (Resize fa s dim gdim dom gcorner gsize L).ung i = dim i + 1
              ∧ (Resize fa s dim gdim dom gcorner gsize L).ufg i < dim i + 1))
      ∧ (dim i = 1 →
        (Resize fa s dim gdim dom gcorner gsize L).lfg i = 1
          ∧ (Resize fa s dim gdim dom gcorner gsize L).ufg i = 1
          ∧ (Resize fa s dim gdim dom gcorner gsize L).lng i = 1
          ∧ (Resize fa s dim gdim dom gcorner gsize L).ung i = 1)
      ∧ (0 ≤ L → ∀ k : ℤ, 1 ≤ k → k ≤ dim i →
        (Resize fa s dim gdim dom gcorner gsize L).lfg i ≤ k
          ∧ k ≤ (Resize fa s dim gdim dom gcorner gsize L).ufg i) := by
  rw [Resize_lfg _ _ _ _ _ _ _ _ i hi, Resize_ufg _ _ _ _ _ _ _ _ i hi,
    Resize_lng _ _ _ _ _ _ _ _ i hi, Resize_ung _ _ _ _ _ _ _ _ i hi]
  refine ⟨fun hd => ?_, fun hd => ?_, fun hL k hk1 hk2 => ?_⟩
  · simp only [hd, if_false]
    refine ⟨⟨fun h => by omega, fun h => ⟨by omega, by omega⟩⟩, fun h0 => ?_⟩
    subst h0
    exact ⟨trivial, by norm_num, trivial, by omega⟩
  · simp [hd]
  · by_cases hd : dim i = 1
    · simp only [hd, if_true]
      omega
    · simp only [hd, if_false]
      omega

/-- Witness of C10: the second axis of the slab `dim = {0,1,8,8}` with ghost depth 2. -/
theorem C10_near_ghost_bounds_witness :
    (2 : Fin 4) ≠ 0 ∧ dims188 2 ≠ 1
      ∧ (((Resize exactArith zeroSpace dims188 dims188 dom000 origin unitSize 2).lfg 2
            ≤ (Resize exactArith zeroSpace dims188 dims188 dom000 origin unitSize 2).lng 2
          ∧ (Resize exactArith zeroSpace dims188 dims188 dom000 origin unitSize 2).ung 2
            ≤ (Resize exactArith zeroSpace dims188 dims188 dom000 origin unitSize 2).ufg 2)
        ↔ (1 : ℤ) ≤ 2) :=
  ⟨by decide, by decide,
    ((C10_near_ghost_bounds exactArith zeroSpace dims188 dims188 dom000 origin unitSize 2 2
      (by decide)).1 (by decide)).1⟩

/-- C7, refuted as stated: with `globalSize[1] = -1 <= 0` on the cube `dim = {0,8,8,8}`
the call of `Resize` does not fail with `InvalidGeometry`; it completes and stores the
negative spacing `-1/8` and the negative size `-1` on that axis. -/
theorem C7_counterexample :
    negSize (vecIndex 1) ≤ 0
      ∧ Resize.outcome exactArith zeroSpace dims888 dims888 dom000 origin negSize 2
        ≠ Except.error GeometryError.InvalidGeometry
      ∧ ∃ r : Space ℚ,
        Resize.outcome exactArith zeroSpace dims888 dims888 dom000 origin negSize 2
            = Except.ok r
          ∧ r.spacing (vecIndex 1) = -1 / 8 ∧ r.size (vecIndex 1) = -1 := by
  refine ⟨by norm_num [negSize], by simp [Resize.outcome], _, rfl, ?_, ?_⟩
  · rw [Resize_spacing _ _ _ _ _ _ _ _ 1 (by decide)]
    norm_num [negSize, dims888, exactArith]
  · rw [Resize_size _ _ _ _ _ _ _ _ 1 (by decide),
      Resize_spacing _ _ _ _ _ _ _ _ 1 (by decide)]
    norm_num [negSize, dims888, exactArith]

/-- C7, amended: `Resize` validates nothing and has no error path. For every input and in
any arithmetic it completes with a geometry state, never with `InvalidGeometry`; on a
spatial axis with `gdim[i] > 0` and `globalSize[i] <= 0` the state it produces holds, in
exact rational arithmetic, the non-positive spacing `globalSize[i]/gdim[i]`. -/
theorem C7_resize_never_fails :
    (∀ (F : Type) (fa : FloatArith F) (s : Space F) (dim gdim dom : Fin 4 → ℤ)
        (gcorner gsize : Fin 3 → F) (L : ℤ),
        Resize.outcome fa s dim gdim dom gcorner gsize L
            ≠ Except.error GeometryError.InvalidGeometry
          ∧ ∃ r : Space F, Resize.outcome fa s dim gdim dom gcorner gsize L = Except.ok r
            ∧ ∀ i : Fin 4, i ≠ 0 →
              r.spacing (vecIndex i) = fa.div (gsize (vecIndex i)) (fa.ofInt (gdim i)))
      ∧ ∀ (s : Space ℚ) (dim gdim dom : Fin 4 → ℤ) (gcorner gsize : Fin 3 → ℚ) (L : ℤ),
        Resize.outcome exactArith s dim gdim dom gcorner gsize L
            ≠ Except.error GeometryError.InvalidGeometry
          ∧ ∃ r : Space ℚ,
            Resize.outcome exactArith s dim gdim dom gcorner gsize L = Except.ok r
              ∧ ∀ i : Fin 4, i ≠ 0 → 0 < gdim i → gsize (vecIndex i) ≤ 0 →
                r.spacing (vecIndex i) = gsize (vecIndex i) / (gdim i : ℚ)
                  ∧ r.spacing (vecIndex i) ≤ 0 := by
  constructor
  · intro F fa s dim gdim dom gcorner gsize L
    exact ⟨by simp [Resize.outcome], _, rfl, fun i hi => Resize_spacing _ _ _ _ _ _ _ _ i hi⟩
  · intro s dim gdim dom gcorner gsize L
    refine ⟨by simp [Resize.outcome], _, rfl, fun i hi hg hs => ?_⟩
    rw [Resize_spacing _ _ _ _ _ _ _ _ i hi]
    have hg' : (0 : ℚ) < (gdim i : ℚ) := by exact_mod_cast hg
    exact ⟨rfl, div_nonpos_of_nonpos_of_nonneg hs hg'.le⟩

/-- Witness of the amended C7: the cube `dim = {0,8,8,8}` with a negative global size
along the first axis. -/
theorem C7_resize_never_fails_witness :
    (1 : Fin 4) ≠ 0 ∧ 0 < dims888 1 ∧ negSize (vecIndex 1) ≤ 0
      ∧ ∃ r : Space ℚ,
        Resize.outcome exactArith zeroSpace dims888 dims888 dom000 origin negSize 2
            = Except.ok r
          ∧ r.spacing (vecIndex 1) ≤ 0 := by
  have hneg : negSize (vecIndex 1) ≤ 0 := by norm_num [negSize]
  obtain ⟨r, hr, h⟩ :=
    (C7_resize_never_fails.2 zeroSpace dims888 dims888 dom000 origin negSize 2).2
  exact ⟨by decide, by decide, hneg, r, hr, (h 1 (by decide) (by decide) hneg).2⟩

/-- C9, refuted as stated: after `Resize` of the cube `dim = {0,8,8,8}` with ghost depth 2
the work count handed to the backend is `12*12*12 = 1728`, while the subdomain has
`8*8*8 = 512` interior cells. -/
theorem C9_counterexample :
    (CellUpdateProtocol
        (Resize exactArith zeroSpace dims888 dims888 dom000 origin unitSize 2)).global_work_size = [1728]
      ∧ (Resize exactArith zeroSpace dims888 dims888 dom000 origin unitSize 2).dim 1
          * (Resize exactArith zeroSpace dims888 dims888 dom000 origin unitSize 2).dim 2
          * (Resize exactArith zeroSpace dims888 dims888 dom000 origin unitSize 2).dim 3 = 512 := by
  decide

/-- C9, amended: for every state produced by `Resize` with `dim[i] >= 1` and
`ghostCellLayers >= 0` whose stored cell count fits a `size_t`, `CellUpdateProtocol` hands
the backend a one-dimensional range without offset whose work count is the number of
stored cells, ghost cells included: `num[1]*num[2]*num[3]`, the product of the
`dim[i] + 2*layers[i]`. It is the interior count `dim[1]*dim[2]*dim[3]` when
`ghostCellLayers = 0`. -/
theorem C9_cell_dispatch_counts_stored_cells {F : Type} (fa : FloatArith F) (s : Space F)
    (dim gdim dom : Fin 4 → ℤ) (gcorner gsize : Fin 3 → F) (L : ℤ)
    (hdim : ∀ i : Fin 4, i ≠ 0 → 1 ≤ dim i) (hL : 0 ≤ L)
    (hfit : (Resize fa s dim gdim dom gcorner gsize L).num 1
        * (Resize fa s dim gdim dom gcorner gsize L).num 2
        * (Resize fa s dim gdim dom gcorner gsize L).num 3 < 2 ^ sizeBits) :
    ∃ cells : Nat,
      CellUpdateProtocol (Resize fa s dim gdim dom gcorner gsize L)
          = { work_dim := 1, global_work_offset := none, global_work_size := [cells] }
        ∧ (cells : ℤ) = (Resize fa s dim gdim dom gcorner gsize L).num 1
            * (Resize fa s dim gdim dom gcorner gsize L).num 2
            * (Resize fa s dim gdim dom gcorner gsize L).num 3
        ∧ (cells : ℤ)
          = ((Resize fa s dim gdim dom gcorner gsize L).dim 1
              + 2 * (Resize fa s dim gdim dom gcorner gsize L).layers 1)
            * ((Resize fa s dim gdim dom gcorner gsize L).dim 2
              + 2 * (Resize fa s dim gdim dom gcorner gsize L).layers 2)
            * ((Resize fa s dim gdim dom gcorner gsize L).dim 3
              + 2 * (Resize fa s dim gdim dom gcorner gsize L).layers 3)
        ∧ (L = 0 → (cells : ℤ) = dim 1 * dim 2 * dim 3) := by
  have hnum : ∀ i : Fin 4, i ≠ 0 →
      (Resize fa s dim gdim dom gcorner gsize L).num i
          = (Resize fa s dim gdim dom gcorner gsize L).dim i
            + 2 * (Resize fa s dim gdim dom gcorner gsize L).layers i
        ∧ 1 ≤ (Resize fa s dim gdim dom gcorner gsize L).num i
        ∧ (L = 0 → (Resize fa s dim gdim dom gcorner gsize L).num i = dim i) := by
    intro i hi
    have hd := hdim i hi
    rw [Resize_num _ _ _ _ _ _ _ _ i hi, Resize_ufg _ _ _ _ _ _ _ _ i hi,
      Resize_lfg _ _ _ _ _ _ _ _ i hi, Resize_dim _ _ _ _ _ _ _ _ i hi,
      Resize_layers _ _ _ _ _ _ _ _ i hi]
    by_cases h1 : dim i = 1
    · simp only [h1, if_true]
      omega
    · simp only [h1, if_false]
      omega
  obtain ⟨e1, p1, z1⟩ := hnum 1 (by decide)
  obtain ⟨e2, p2, z2⟩ := hnum 2 (by decide)
  obtain ⟨e3, p3, z3⟩ := hnum 3 (by decide)
  have hpos : 0 ≤ (Resize fa s dim gdim dom gcorner gsize L).num 1
      * (Resize fa s dim gdim dom gcorner gsize L).num 2
      * (Resize fa s dim gdim dom gcorner gsize L).num 3 := by positivity
  have hcells : ((toSizeT ((Resize fa s dim gdim dom gcorner gsize L).num 1
      * (Resize fa s dim gdim dom gcorner gsize L).num 2
      * (Resize fa s dim gdim dom gcorner gsize L).num 3) : Nat) : ℤ)
      = (Resize fa s dim gdim dom gcorner gsize L).num 1
        * (Resize fa s dim gdim dom gcorner gsize L).num 2
        * (Resize fa s dim gdim dom gcorner gsize L).num 3 := by
    unfold toSizeT
    rw [Int.emod_eq_of_lt hpos hfit, Int.toNat_of_nonneg hpos]
  refine ⟨_, rfl, hcells, ?_, fun h0 => ?_⟩
  · rw [hcells, e1, e2, e3]
  · rw [hcells, z1 h0, z2 h0, z3 h0]

/-- Witness of the amended C9: the cube `dim = {0,8,8,8}` with ghost depth 2 is handed
over as 1728 work items. -/
theorem C9_cell_dispatch_counts_stored_cells_witness :
    (∀ i : Fin 4, i ≠ 0 → 1 ≤ dims888 i) ∧ (0 : ℤ) ≤ 2
      ∧ (Resize exactArith zeroSpace dims888 dims888 dom000 origin unitSize 2).num 1
          * (Resize exactArith zeroSpace dims888 dims888 dom000 origin unitSize 2).num 2
          * (Resize exactArith zeroSpace dims888 dims888 dom000 origin unitSize 2).num 3 < 2 ^ sizeBits
      ∧ ∃ cells : Nat,
        CellUpdateProtocol (Resize exactArith zeroSpace dims888 dims888 dom000 origin unitSize 2)
            = { work_dim := 1, global_work_offset := none, global_work_size := [cells] }
          ∧ (cells : ℤ) = (Resize exactArith zeroSpace dims888 dims888 dom000 origin unitSize 2).num 1
              * (Resize exactArith zeroSpace dims888 dims888 dom000 origin unitSize 2).num 2
              * (Resize exactArith zeroSpace dims888 dims888 dom000 origin unitSize 2).num 3 := by
  obtain ⟨cells, h1, h2, _⟩ :=
    C9_cell_dispatch_counts_stored_cells exactArith zeroSpace dims888 dims888 dom000 origin unitSize 2
      (by decide) (by decide) (by decide)
  exact ⟨by decide, by decide, by decide, cells, h1, h2⟩

/-- C5, the code at the failing input: a default-constructed object resized first to a
single cell and then to the cube `dim = {0,2,2,2}` (ghost depth 2) is a reachable state in
which the first axis has two cells, yet `ignorable[1]` is still 1 while
`encodingStride[1] = decodingStride[1] = 36`. -/
theorem C5_flag_survives_second_resize :
    Reachable exactArith (Resize exactArith (Resize exactArith (DiscreteSpace.ctor zeroSpace)
        dims111 dims111 dom000 origin unitSize 2) dims222 dims222 dom000 origin unitSize 2)
      ∧ (Resize exactArith (Resize exactArith (DiscreteSpace.ctor zeroSpace)
        dims111 dims111 dom000 origin unitSize 2) dims222 dims222 dom000 origin unitSize
          2).dim 1 = 2
      ∧ (Resize exactArith (Resize exactArith (DiscreteSpace.ctor zeroSpace)
        dims111 dims111 dom000 origin unitSize 2) dims222 dims222 dom000 origin unitSize
          2).ignorable 1 = 1
      ∧ (Resize exactArith (Resize exactArith (DiscreteSpace.ctor zeroSpace)
        dims111 dims111 dom000 origin unitSize 2) dims222 dims222 dom000 origin unitSize
          2).encodingStride 1 = 36
      ∧ (Resize exactArith (Resize exactArith (DiscreteSpace.ctor zeroSpace)
        dims111 dims111 dom000 origin unitSize 2) dims222 dims222 dom000 origin unitSize
          2).decodingStride 1 = 36 := by
  refine ⟨?_, by decide, by decide, by decide, by decide⟩
  exact Reachable.resize _ _ _ _ _ _ _
    (Reachable.resize _ _ _ _ _ _ _ (Reachable.ctor zeroSpace) (by decide) (by decide))
    (by decide) (by decide)

/-- C4: after `Resize` with `dim[i] >= 1` on every axis and `ghostCellLayers >= 0`, the
encoder `(i1,i2,i3) ↦ (i1-lfg[1])*encodingStride[1] + (i2-lfg[2])*encodingStride[2]
+ (i3-lfg[3])*encodingStride[3]` is a bijection from the stored box
`lfg[k] <= ik <= ufg[k]` onto the offsets `0 .. num[1]*num[2]*num[3] - 1`, the decoder
recovers every index of the box from its offset, and it sends every offset of the range
to an index of the box that encodes to it; ignorable axes included. -/
theorem C4_encode_decode_inverse {F : Type} (fa : FloatArith F) (s : Space F)
    (dim gdim dom : Fin 4 → ℤ) (gcorner gsize : Fin 3 → F) (L : ℤ)
    (hdim : ∀ i : Fin 4, i ≠ 0 → 1 ≤ dim i) (hL : 0 ≤ L)
    (r : Space F) (hr : r = Resize fa s dim gdim dom gcorner gsize L) :
    Set.BijOn (fun p : ℤ × ℤ × ℤ => EncodeCell r p.1 p.2.1 p.2.2) (storedBox r)
        (Set.Ico 0 (r.num 1 * r.num 2 * r.num 3))
      ∧ (∀ p ∈ storedBox r, DecodeCell r (EncodeCell r p.1 p.2.1 p.2.2) = p)
      ∧ ∀ c ∈ Set.Ico 0 (r.num 1 * r.num 2 * r.num 3),
        DecodeCell r c ∈ storedBox r
          ∧ EncodeCell r (DecodeCell r c).1 (DecodeCell r c).2.1 (DecodeCell r c).2.2 = c := by
  obtain ⟨hd1, hd2, hd3⟩ := Resize_decodingStride fa s dim gdim dom gcorner gsize L
  have hn : ∀ i : Fin 4, i ≠ 0 → r.num i = r.ufg i - r.lfg i + 1 := by
    intro i hi
    rw [hr]
    exact Resize_num fa s dim gdim dom gcorner gsize L i hi
  have hpos : ∀ i : Fin 4, i ≠ 0 → 1 ≤ r.num i := by
    intro i hi
    rw [hr]
    exact (Resize_num_pos fa s dim gdim dom gcorner gsize L hdim hL i hi).1
  have he : ∀ i : Fin 4, i ≠ 0 → r.encodingStride i = r.decodingStride i ∨ r.num i = 1 := by
    intro i hi
    rw [hr, Resize_encodingStride _ _ _ _ _ _ _ _ i hi]
    by_cases h1 : dim i = 1
    · exact Or.inr ((Resize_num_pos fa s dim gdim dom gcorner gsize L hdim hL i hi).2 h1)
    · exact Or.inl (by rw [if_neg h1])
  rw [← hr] at hd1 hd2 hd3
  obtain ⟨henc, hdec⟩ := encode_decode_of_geometry r hn hpos hd1 hd2 hd3 he
  refine ⟨⟨?_, ?_, ?_⟩, ?_, ?_⟩
  · rintro ⟨i, j, k⟩ hp
    exact (henc i j k hp).1
  · rintro ⟨i, j, k⟩ hp ⟨i', j', k'⟩ hq heq
    have e1 := (henc i j k hp).2
    have e2 := (henc i' j' k' hq).2
    simp only at heq
    rw [heq, e2] at e1
    exact e1.symm
  · intro c hc
    exact ⟨DecodeCell r c, (hdec c hc.1 hc.2).1, (hdec c hc.1 hc.2).2⟩
  · rintro ⟨i, j, k⟩ hp
    exact (henc i j k hp).2
  · intro c hc
    exact hdec c hc.1 hc.2

/-- Witness of C4: on the slab `dim = {0,1,8,8}` with ghost depth 2, whose first axis is
ignorable, the cell `(1,3,-1)` of the stored box is recovered from its offset. -/
theorem C4_encode_decode_inverse_witness :
    (∀ i : Fin 4, i ≠ 0 → 1 ≤ dims188 i) ∧ (0 : ℤ) ≤ 2
      ∧ ((1, 3, -1) : ℤ × ℤ × ℤ)
        ∈ storedBox (Resize exactArith zeroSpace dims188 dims188 dom000 origin unitSize 2)
      ∧ DecodeCell (Resize exactArith zeroSpace dims188 dims188 dom000 origin unitSize 2)
          (EncodeCell (Resize exactArith zeroSpace dims188 dims188 dom000 origin unitSize 2) 1 3 (-1))
        = (1, 3, -1) := by
  have hbox : ((1, 3, -1) : ℤ × ℤ × ℤ)
      ∈ storedBox (Resize exactArith zeroSpace dims188 dims188 dom000 origin unitSize 2) := by
    refine ⟨⟨?_, ?_⟩, ⟨?_, ?_⟩, ⟨?_, ?_⟩⟩ <;> decide
  exact ⟨by decide, by decide, hbox,
    (C4_encode_decode_inverse exactArith zeroSpace dims188 dims188 dom000 origin unitSize 2 (by decide)
      (by decide) _ rfl).2.1 (1, 3, -1) hbox⟩

/-- C6: for every state `s`, `WriteCheckpoint` appends to the stream one record of fixed
size holding the fields in the order `dt, dth, dti, corner, size, globalCorner,
globalSize, spacing, freq, num, dim, lfg, ufg, lng, ung, ignorable, encodingStride,
decodingStride, layers`; `ReadCheckpoint`, applied to any object and a stream positioned at
that record, yields exactly `s` (every serialized field) and leaves the stream, still
good, right behind the record with whatever follows it untouched. -/
theorem C6_checkpoint_round_trip {F I : Type} (fr : RawRep F) (vr : RawRep (Fin 3 → F))
    (ir : RawRep I) (s t : DiscreteSpace F I) (pre rest : List Byte) :
    WriteCheckpoint fr vr ir s { data := pre } = { data := pre ++ recordLayout fr vr ir s }
      ∧ (recordLayout fr vr ir s).length
        = 3 * fr.sizeof + 6 * vr.sizeof + 10 * (4 * ir.sizeof)
      ∧ ReadCheckpoint fr vr ir t { data := recordLayout fr vr ir s ++ rest, failbit := false }
        = (s, { data := rest, failbit := false }) :=
  ⟨WriteCheckpoint_eq fr vr ir s pre, recordLayout_length fr vr ir s,
    ReadCheckpoint_recordLayout fr vr ir s t rest⟩

/-- Witness of C6: a state of 64-bit words written behind the byte 7 makes a stream of
`1 + 488` bytes, and its record read into a fresh object from a stream that continues
with the byte 9 gives the state back and leaves the byte 9. -/
theorem C6_checkpoint_round_trip_witness :
    (WriteCheckpoint word64Rep (vec3Rep word64Rep) word64Rep sampleWords
        { data := [7] }).data.length = 489
      ∧ ReadCheckpoint word64Rep (vec3Rep word64Rep) word64Rep zeroWords
          { data := recordLayout word64Rep (vec3Rep word64Rep) word64Rep sampleWords ++ [9],
            failbit := false }
        = (sampleWords, { data := [9], failbit := false }) := by
  obtain ⟨hw, hl, hrd⟩ :=
    C6_checkpoint_round_trip word64Rep (vec3Rep word64Rep) word64Rep sampleWords zeroWords
      [7] [9]
  refine ⟨?_, hrd⟩
  rw [hw, List.length_append, hl]
  rfl

end tw
